import Mathlib

/-!
# Verification of the `wadtools` core (hashtable, diff engine, extraction engine)

Shallow embedding of the core of `crates/wadtools`:
* `utils/hashtable.rs` — the `WadHashtable` mapping path hashes to paths,
* `utils/mod.rs` — `format_chunk_path_hash`, `is_hex_chunk_path`,
  `truncate_middle`, `create_filter_pattern`,
* `commands/diff.rs` — `collect_diffs`, `create_csv_records`,
  `write_diffs_to_csv`,
* `extractor.rs` — `resolve_final_chunk_path`, `build_ltk_name`,
  `write_long_filename_chunk`, `extract_wad_chunk`, `extract_wad_chunks`,
* `commands/list.rs` — the compression-ratio computation.

Modelling conventions:
* Rust `u64` / `usize` values are `Nat`; the only places where the 64-bit
  range matters (hex formatting and `u64::from_str_radix`) carry explicit
  `< 2 ^ 64` bounds and overflow checks.
* `HashMap` values are association lists `List (Nat × α)`; the list order
  stands for the (unspecified) iteration order of the map, and `List.lookup`
  models `HashMap::get`.
* `camino::Utf8Path` values are lists of path components; `pathOfString`
  splits a resolved path string on a component separator.
* Filesystem effects are explicit: directory probing is a `Utf8Path → Bool`
  argument and `fs::write` outcomes are a `Utf8Path → Option IoErrorKind`
  argument; successful writes are returned as a log.  Creation of parent
  directories carries no decision weight and is modelled as always
  succeeding.
* The external `league_toolkit` collaborators (decoder, file-kind
  classifier) are parameters: `decompress` returns `Except`, and a
  `Classifier` bundles `identify_from_bytes` with `extension`.
-/

/-! ## Characters and hexadecimal digits -/

/-- Lowercase hexadecimal digit character for a value `0 ≤ n < 16`,
as produced by Rust `format!` with the `x` formatting type
(`0`–`9` then `a`–`f`). -/
def hexDigitChar (n : Nat) : Char :=
  if n < 10 then Char.ofNat (48 + n) else Char.ofNat (87 + n)

/-- Value of a hexadecimal digit character, as accepted by
`u64::from_str_radix(_, 16)` (`0`–`9`, `a`–`f`, `A`–`F`). -/
def hexDigitVal (c : Char) : Option Nat :=
  if 48 ≤ c.toNat ∧ c.toNat ≤ 57 then some (c.toNat - 48)
  else if 97 ≤ c.toNat ∧ c.toNat ≤ 102 then some (c.toNat - 87)
  else if 65 ≤ c.toNat ∧ c.toNat ≤ 70 then some (c.toNat - 55)
  else none

/-- Rust `char::is_ascii_hexdigit`. -/
def isAsciiHexDigit (c : Char) : Bool :=
  (48 ≤ c.toNat && c.toNat ≤ 57) ||
  (97 ≤ c.toNat && c.toNat ≤ 102) ||
  (65 ≤ c.toNat && c.toNat ≤ 70)

/-- A lowercase hexadecimal digit (`0`–`9`, `a`–`f`); the character class
`format_chunk_path_hash` emits. -/
def isLowerHexDigit (c : Char) : Bool :=
  (48 ≤ c.toNat && c.toNat ≤ 57) || (97 ≤ c.toNat && c.toNat ≤ 102)

/-! ## Hex formatting (`format_chunk_path_hash`) and parsing
(`u64::from_str_radix(_, 16)`) -/

/-- Big-endian hexadecimal digit characters of `n`, with enough `fuel`
(16 suffices for `u64`).  Equals the digit sequence of `format!("{:x}", n)`;
empty for `n = 0`. -/
def toHexChars : Nat → Nat → List Char
  | 0, _ => []
  | fuel + 1, n =>
    if n = 0 then [] else toHexChars fuel (n / 16) ++ [hexDigitChar (n % 16)]

/-- `utils/mod.rs::format_chunk_path_hash`: `format!("{:016x}", path_hash)` —
the 16-digit zero-padded lowercase hex rendering of a `u64` path hash. -/
def format_chunk_path_hash (path_hash : Nat) : String :=
  let ds := toHexChars 16 path_hash
  ⟨List.replicate (16 - ds.length) '0' ++ ds⟩

/-- One step of the accumulating base-16 parse: `acc * 16 + digit`,
failing on a non-digit. -/
def parseHexAcc (acc : Option Nat) (c : Char) : Option Nat :=
  match acc with
  | some a => (hexDigitVal c).map (fun d => 16 * a + d)
  | none => none

/-- Parse a nonempty all-hex-digit character sequence into a `u64` value;
the value must fit in a `u64` (the accumulated value grows monotonically,
so the final bound is equivalent to step-wise overflow checking). -/
def fromHexDigits (cs : List Char) : Option Nat :=
  if cs.isEmpty then none
  else match cs.foldl parseHexAcc (some 0) with
    | some v => if v < 2 ^ 64 then some v else none
    | none => none

/-- `u64::from_str_radix(s, 16)`: optional leading `+`, then at least one
digit, every character a hex digit, value below `2 ^ 64`. -/
def from_str_radix_16 (s : String) : Option Nat :=
  match s.data with
  | '+' :: rest => fromHexDigits rest
  | cs => fromHexDigits cs

/-! ## Path model (`camino::Utf8Path`) -/

/-- A UTF-8 path as its list of components. -/
abbrev Utf8Path := List String

/-- Split a character list at every occurrence of `sep` (the separator is
dropped; `n` separators yield `n + 1` pieces, so the empty input yields one
empty piece).  Mirrors Rust `str::split(sep)` for a `char` separator. -/
def splitOnChar (sep : Char) : List Char → List (List Char)
  | [] => [[]]
  | c :: rest =>
    if c = sep then [] :: splitOnChar sep rest
    else
      match splitOnChar sep rest with
      | head :: tail => (c :: head) :: tail
      | [] => [[c]]

/-- `splitOnChar` on strings. -/
def splitStringOn (sep : Char) (s : String) : List String :=
  (splitOnChar sep s.data).map (fun l => ⟨l⟩)

/-- Parse a resolved path string into components
(`Utf8Path::new`); empty components (leading, trailing or doubled
separators) are not components. -/
def pathOfString (s : String) : Utf8Path :=
  (splitStringOn '/' s).filter (fun c => c ≠ "")

/-- Render a path for diagnostics (`Utf8Path::as_str`). -/
def pathToString (p : Utf8Path) : String :=
  String.intercalate "/" p

/-- `Utf8Path::file_name` of a component list; the empty string when there
is none (the call sites use `file_name().unwrap_or("")` or an empty-path
guard). -/
def pathFileName (p : Utf8Path) : String :=
  (p.getLast?).getD ""

/-- Split a file name at its last `.`: `some (before, after)` when a dot
exists, `none` otherwise.  Mirrors `str::rsplit_once('.')`. -/
def rsplitDot : List Char → Option (List Char × List Char)
  | [] => none
  | c :: rest =>
    match rsplitDot rest with
    | some (l, r) => some (c :: l, r)
    | none => if c = '.' then some ([], rest) else none

/-- `Utf8Path::extension` restricted to a file name: the part after the last
dot, provided the part before it is nonempty (so `.hidden` has no
extension; `name.` has extension `""`). -/
def fileExtension (name : String) : Option String :=
  match rsplitDot name.data with
  | some (b, a) => if b = [] then none else some ⟨a⟩
  | none => none

/-- `Utf8Path::file_stem` restricted to a file name: the part before the
last dot, or the whole name when there is no extension. -/
def fileStem (name : String) : String :=
  match rsplitDot name.data with
  | some (b, _) => if b = [] then name else ⟨b⟩
  | none => name

/-- `Utf8Path::extension` of a path. -/
def pathExtension (p : Utf8Path) : Option String :=
  match p.getLast? with
  | none => none
  | some name => fileExtension name

/-- `Utf8Path::file_stem().unwrap_or("")` of a path. -/
def pathFileStem (p : Utf8Path) : String :=
  fileStem (pathFileName p)

/-- `Utf8PathBuf::set_extension` with a nonempty extension: the final
component becomes `stem ++ "." ++ ext` (a no-op on the empty path). -/
def setExtension (p : Utf8Path) (ext : String) : Utf8Path :=
  match p.getLast? with
  | none => p
  | some name => p.dropLast ++ [fileStem name ++ "." ++ ext]

/-- `Utf8PathBuf::set_file_name`: replace the final component (push when the
path is empty). -/
def setFileName (p : Utf8Path) (name : String) : Utf8Path :=
  p.dropLast ++ [name]

/-! ## `utils/mod.rs` -/

/-- `utils/mod.rs::is_hex_chunk_path`: the file name has length 16 and every
character is an ASCII hex digit.  (Rust checks the byte length; for a name
passing the all-hex-digits check the byte and character lengths agree, and
a name failing it is rejected under both readings.) -/
def is_hex_chunk_path (p : Utf8Path) : Bool :=
  let file_name := pathFileName p
  file_name.length = 16 && file_name.data.all isAsciiHexDigit

/-- `utils/mod.rs::truncate_middle`: keep a prefix and a suffix joined by
`"..."` when the input exceeds `max_len` characters. -/
def truncate_middle (input : String) (max_len : Nat) : String :=
  if input.length ≤ max_len then input
  else if max_len ≤ 3 then "..."
  else
    let keep := max_len - 3
    let left := keep / 2
    let right := keep - left
    ⟨input.data.take left⟩ ++ "..." ++ ⟨(input.data.reverse.take right).reverse⟩

/-- `needle` occurs as a contiguous subsequence of the character list
(`str::contains` for a literal needle). -/
def containsSub (needle : List Char) : List Char → Bool
  | [] => needle.isEmpty
  | c :: rest => needle.isPrefixOf (c :: rest) || containsSub needle rest

/-- Does the pattern contain an inline case-sensitivity flag
(`p.contains("(?i)") || p.contains("(?-i)")`)? -/
def hasInlineCaseFlag (p : String) : Bool :=
  containsSub "(?i)".data p.data || containsSub "(?-i)".data p.data

/-- `utils/mod.rs::create_filter_pattern`, up to the (collaborator) regex
compilation: the pattern string handed to `Regex::new` — prefixed with
`(?i)` exactly when the pattern has no inline case flag. -/
def create_filter_pattern (pattern : Option String) : Option String :=
  match pattern with
  | some p => if hasInlineCaseFlag p then some p else some ("(?i)" ++ p)
  | none => none

/-! ## `utils/hashtable.rs` — `WadHashtable` -/

/-- The hashtable item map, as an association list modelling
`HashMap<u64, Arc<str>>`; `List.lookup` models `get`. -/
abbrev HashtableItems := List (Nat × String)

/-- `HashMap::insert`: overwrite the entry for `k` when present, append it
otherwise (last writer wins). -/
def insertAssoc (items : HashtableItems) (k : Nat) (v : String) : HashtableItems :=
  if items.any (fun q => q.1 = k) then
    items.map (fun q => if q.1 = k then (k, v) else q)
  else
    items ++ [(k, v)]

/-- `hashtable.rs::resolve_path`: the stored path when present, the
zero-padded hex rendering of the hash otherwise. -/
def resolve_path (items : HashtableItems) (path_hash : Nat) : String :=
  match items.lookup path_hash with
  | some p => p
  | none => format_chunk_path_hash path_hash

/-- Outcome of `add_from_file`: normal return with the updated items,
an error returned to the caller (the `?` on `ok_or`), or a process abort
(the `expect` call). -/
inductive AddFromFileOutcome
  | ok (items : HashtableItems)
  | errored (msg : String)
  | panicked (msg : String)
deriving DecidableEq

/-- `hashtable.rs::add_from_file` over the list of (successfully read)
lines of the source.  Each line is split on `' '`; the first component is
parsed with `u64::from_str_radix(_, 16)` — whose failure the code turns
into a panic via `.expect("failed to convert hash")` — and the remaining
components re-joined with `" "` become the stored path. -/
def add_from_file : HashtableItems → List String → AddFromFileOutcome
  | items, [] => .ok items
  | items, line :: rest =>
    match splitStringOn ' ' line with
    | [] => .errored "failed to read hash"
    | hashStr :: comps =>
      match from_str_radix_16 hashStr with
      | none => .panicked "failed to convert hash"
      | some hash =>
        add_from_file (insertAssoc items hash (String.intercalate " " comps)) rest

/-! ## `commands/diff.rs` — the diff engine -/

/-- `league_toolkit::wad::WadChunk`, restricted to the fields the core
reads. -/
structure WadChunk where
  path_hash : Nat
  checksum : Nat
  compressed_size : Nat
  uncompressed_size : Nat
deriving DecidableEq

/-- A mounted container's chunk map (`wad.chunks() : HashMap<u64, WadChunk>`)
as an association list in iteration order. -/
abbrev ChunkMap := List (Nat × WadChunk)

/-- `diff.rs::ChunkDiff`. -/
inductive ChunkDiff
  | New (chunk : WadChunk)
  | Removed (chunk : WadChunk)
  | Modified (old new : WadChunk)
  | Renamed (old new : WadChunk)
deriving DecidableEq

/-- `diff.rs::collect_diffs`.  First pass over the reference chunks pushes
`Removed` for hashes absent from the target and `Modified` for checksum
mismatches; second pass over the target chunks pushes, for hashes absent
from the reference, either `Renamed` (when `reference_wad.chunks().values()`
holds some chunk with an equal checksum — note: all reference chunks are
searched, and the `Removed` pushed by the first pass is not retracted) or
`New`. -/
def collect_diffs (reference_wad target_wad : ChunkMap) : List ChunkDiff :=
  let diffs := reference_wad.foldl
    (fun diffs q =>
      match target_wad.lookup q.1 with
      | none => diffs ++ [ChunkDiff.Removed q.2]
      | some target_chunk =>
        if target_chunk.checksum ≠ q.2.checksum then
          diffs ++ [ChunkDiff.Modified q.2 target_chunk]
        else diffs)
    []
  target_wad.foldl
    (fun diffs q =>
      match reference_wad.lookup q.1 with
      | some _ => diffs
      | none =>
        match (reference_wad.map Prod.snd).find? (fun c => c.checksum = q.2.checksum) with
        | some renamed_chunk => diffs ++ [ChunkDiff.Renamed renamed_chunk q.2]
        | none => diffs ++ [ChunkDiff.New q.2])
    diffs

/-- `diff.rs::ChunkDiffCsvRecord`. -/
structure ChunkDiffCsvRecord where
  diff_type : String
  hash : String
  path : String
  new_path : String
  old_uncompressed_size : Nat
  new_uncompressed_size : Nat
deriving DecidableEq

/-- The record `diff.rs::create_csv_records` pushes for one diff. -/
def csv_record_of (ht : HashtableItems) : ChunkDiff → ChunkDiffCsvRecord
  | .New chunk =>
    ⟨"new", format_chunk_path_hash chunk.path_hash, resolve_path ht chunk.path_hash,
      "", chunk.uncompressed_size, chunk.uncompressed_size⟩
  | .Removed chunk =>
    ⟨"removed", format_chunk_path_hash chunk.path_hash, resolve_path ht chunk.path_hash,
      "", chunk.uncompressed_size, chunk.uncompressed_size⟩
  | .Modified old new =>
    ⟨"modified", format_chunk_path_hash old.path_hash, resolve_path ht old.path_hash,
      "", old.uncompressed_size, new.uncompressed_size⟩
  | .Renamed old new =>
    ⟨"renamed", format_chunk_path_hash old.path_hash, resolve_path ht old.path_hash,
      resolve_path ht new.path_hash, old.uncompressed_size, new.uncompressed_size⟩

/-- `diff.rs::create_csv_records`: one record per diff, in order (the loop
pushes exactly one record per iteration). -/
def create_csv_records (diffs : List ChunkDiff) (ht : HashtableItems) :
    List ChunkDiffCsvRecord :=
  diffs.map (csv_record_of ht)

/-- Byte-order comparison of characters lifted to lists: `charListLe a b`
iff `a ≤ b` lexicographically by code point, which for UTF-8 strings agrees
with Rust's `String::cmp` byte order. -/
def charListLe : List Char → List Char → Bool
  | [], _ => true
  | _ :: _, [] => false
  | a :: as, b :: bs =>
    if a.toNat < b.toNat then true
    else if b.toNat < a.toNat then false
    else charListLe as bs

/-- `a ≤ b` on strings in Rust `Ord` order. -/
def strLe (a b : String) : Bool :=
  charListLe a.data b.data

/-- The comparator of `records.sort_by(|a, b| a.path.cmp(&b.path))`. -/
def csvPathLe (a b : ChunkDiffCsvRecord) : Prop :=
  strLe a.path b.path = true

instance : DecidableRel csvPathLe :=
  fun a b => inferInstanceAs (Decidable (strLe a.path b.path = true))

/-- `diff.rs::write_diffs_to_csv`, up to serialization: the record sequence
written to the file — the records of `create_csv_records`, stably sorted by
the `path` field. -/
def write_diffs_to_csv (diffs : List ChunkDiff) (ht : HashtableItems) :
    List ChunkDiffCsvRecord :=
  List.insertionSort csvPathLe (create_csv_records diffs ht)

/-- Ascending (non-strict) sortedness of a string list, in Rust string
order. -/
def isSortedAscStr : List String → Bool
  | [] => true
  | [_] => true
  | a :: b :: rest => strLe a b && isSortedAscStr (b :: rest)

/-! ## `extractor.rs` — the extraction engine -/

/-- The `league_toolkit` file-kind classifier collaborator: file kinds are
an opaque enumeration (`Nat`), `identify` is
`LeagueFileKind::identify_from_bytes` and `extension` is
`LeagueFileKind::extension`. -/
structure Classifier where
  identify : List Nat → Nat
  extension : Nat → Option String

/-- Kind of a failed `fs::write`, as distinguished by the code
(`io::ErrorKind::InvalidFilename` versus everything else). -/
inductive IoErrorKind
  | invalidFilename
  | other (code : Nat)
deriving DecidableEq

/-- Filesystem state visible to the extractor: directory probing
(`Utf8Path::is_dir`) and the outcome `fs::write` would have at a path
(`none` = success). -/
structure Fs where
  isDir : Utf8Path → Bool
  writeResult : Utf8Path → Option IoErrorKind

/-- A successful `fs::write` performed by the extractor. -/
structure WriteOp where
  path : Utf8Path
  data : List Nat
deriving DecidableEq

/-- Errors of the extraction engine, carrying the diagnostic payload the
code attaches: `wrap_err` with the chunk path on decompression failure,
`wrap_err` with the (display-truncated) destination path on an ordinary
write failure, and the raw propagated error when the long-filename
fallback write itself fails. -/
inductive ExtractError
  | decompressFailed (chunk_path : String)
  | writeFailed (dest_path : String)
  | fallbackWriteFailed (kind : IoErrorKind)
deriving DecidableEq

/-- `extractor.rs::build_ltk_name`: the synthesized file name — the stem,
the `.ltk` infix marker, and the sniffed extension when known (the kind is
re-identified from the bytes). -/
def build_ltk_name (cl : Classifier) (file_stem : String) (chunk_data : List Nat) : String :=
  match cl.extension (cl.identify chunk_data) with
  | some ext => file_stem ++ ".ltk." ++ ext
  | none => file_stem ++ ".ltk"

/-- `extractor.rs::resolve_final_chunk_path`.  Hex chunk names keep the
16-hex base with the sniffed extension appended; otherwise a missing
extension or a collision with an existing directory at
`extract_directory.join(final_path)` replaces the file name with the
`.ltk` name; otherwise the path is unchanged. -/
def resolve_final_chunk_path (cl : Classifier) (isDir : Utf8Path → Bool)
    (extract_directory chunk_path : Utf8Path) (chunk_data : List Nat)
    (chunk_kind : Nat) : Utf8Path :=
  let final_path := chunk_path
  if is_hex_chunk_path final_path then
    match cl.extension chunk_kind with
    | some ext => setExtension final_path ext
    | none => final_path
  else
    let has_extension := (pathExtension final_path).isSome
    let collides_with_dir := isDir (extract_directory ++ final_path)
    if !has_extension || collides_with_dir then
      let original_stem := pathFileStem chunk_path
      setFileName final_path (build_ltk_name cl original_stem chunk_data)
    else
      final_path

/-- The hex-derived file name `extractor.rs::write_long_filename_chunk`
writes under: `format!("{:016x}", chunk.path_hash())` with the sniffed
extension set when known. -/
def long_filename_fallback_name (cl : Classifier) (chunk : WadChunk)
    (chunk_kind : Nat) : Utf8Path :=
  let hashed_path : Utf8Path := [format_chunk_path_hash chunk.path_hash]
  match cl.extension chunk_kind with
  | some ext => setExtension hashed_path ext
  | none => hashed_path

/-- `extractor.rs::write_long_filename_chunk`: write the bytes under the
hex-derived name directly under the destination root; a failure of this
write propagates raw (no `wrap_err`). -/
def write_long_filename_chunk (cl : Classifier) (fs : Fs) (chunk : WadChunk)
    (extract_directory : Utf8Path) (chunk_data : List Nat) (chunk_kind : Nat) :
    Except ExtractError WriteOp :=
  let p := extract_directory ++ long_filename_fallback_name cl chunk chunk_kind
  match fs.writeResult p with
  | none => .ok ⟨p, chunk_data⟩
  | some kind => .error (.fallbackWriteFailed kind)

/-- Does the kind filter exclude this kind
(`filter_type.is_some_and(|filter| !filter.contains(&chunk_kind))`)? -/
def filterExcludes (filter_type : Option (List Nat)) (chunk_kind : Nat) : Bool :=
  match filter_type with
  | some filter => !(filter.contains chunk_kind)
  | none => false

/-- `extractor.rs::extract_wad_chunk`.  Decompress (failure wrapped with
the chunk path), sniff, apply the kind filter (skip returns `false`),
resolve the final path, write — success returns `true` with the write;
an `InvalidFilename` failure takes the long-filename fallback and still
returns `true`; any other failure is an error wrapped with the
display-truncated destination path.  (`create_dir_all` on the parent is
modelled as succeeding.) -/
def extract_wad_chunk (cl : Classifier)
    (decompress : WadChunk → Except String (List Nat)) (fs : Fs)
    (chunk : WadChunk) (chunk_path extract_directory : Utf8Path)
    (filter_type : Option (List Nat)) : Except ExtractError (Bool × List WriteOp) :=
  match decompress chunk with
  | .error _ => .error (.decompressFailed (pathToString chunk_path))
  | .ok chunk_data =>
    let chunk_kind := cl.identify chunk_data
    if filterExcludes filter_type chunk_kind then
      .ok (false, [])
    else
      let chunk_path2 :=
        resolve_final_chunk_path cl fs.isDir extract_directory chunk_path chunk_data chunk_kind
      let full_path := extract_directory ++ chunk_path2
      match fs.writeResult full_path with
      | none => .ok (true, [⟨full_path, chunk_data⟩])
      | some kind =>
        if kind = .invalidFilename then
          match write_long_filename_chunk cl fs chunk extract_directory chunk_data chunk_kind with
          | .ok w => .ok (true, [w])
          | .error e => .error e
        else
          .error (.writeFailed (truncate_middle (pathToString full_path) 120))

/-- One progress-callback invocation: the code reports the fraction
`i / chunks.len()` (recorded here as numerator and denominator) with the
display-truncated resolved path as message. -/
structure ProgressEntry where
  numerator : Nat
  denominator : Nat
  message : String
deriving DecidableEq

/-- Result of a successful extraction run: the returned extracted count,
the successful writes, and the progress-callback log. -/
structure ExtractRun where
  extracted_count : Nat
  writes : List WriteOp
  progress : List ProgressEntry
deriving DecidableEq

/-- Does the path pattern admit this resolved path
(`regex.is_match(path).unwrap_or(false)` when a pattern is configured,
everything admitted otherwise)?  The compiled regex is modelled as its
match predicate. -/
def patternAdmits (filter_pattern : Option (String → Bool)) (path : String) : Bool :=
  match filter_pattern with
  | some is_match => is_match path
  | none => true

/-- The per-chunk loop of `extractor.rs::extract_wad_chunks`:
resolve the path, report progress (every chunk, including skipped ones),
skip on pattern mismatch, otherwise run `extract_wad_chunk` and count a
`true` return. -/
def extract_wad_chunks_go (cl : Classifier)
    (decompress : WadChunk → Except String (List Nat)) (fs : Fs)
    (wad_hashtable : HashtableItems) (extract_directory : Utf8Path)
    (filter_type : Option (List Nat)) (filter_pattern : Option (String → Bool))
    (total : Nat) :
    List WadChunk → Nat → Nat → List WriteOp → List ProgressEntry →
    Except ExtractError ExtractRun
  | [], _, extracted_count, writes, progress => .ok ⟨extracted_count, writes, progress⟩
  | chunk :: rest, i, extracted_count, writes, progress =>
    let chunk_path_str := resolve_path wad_hashtable chunk.path_hash
    let progress2 := progress ++ [⟨i, total, truncate_middle chunk_path_str 120⟩]
    if patternAdmits filter_pattern chunk_path_str = false then
      extract_wad_chunks_go cl decompress fs wad_hashtable extract_directory
        filter_type filter_pattern total rest (i + 1) extracted_count writes progress2
    else
      match extract_wad_chunk cl decompress fs chunk (pathOfString chunk_path_str)
          extract_directory filter_type with
      | .error e => .error e
      | .ok (wrote, ws) =>
        extract_wad_chunks_go cl decompress fs wad_hashtable extract_directory
          filter_type filter_pattern total rest (i + 1)
          (extracted_count + if wrote then 1 else 0) (writes ++ ws) progress2

/-- `extractor.rs::extract_wad_chunks` over the chunk list (the values of
the chunk map in iteration order). -/
def extract_wad_chunks (cl : Classifier)
    (decompress : WadChunk → Except String (List Nat)) (fs : Fs)
    (wad_hashtable : HashtableItems) (chunks : List WadChunk)
    (extract_directory : Utf8Path) (filter_type : Option (List Nat))
    (filter_pattern : Option (String → Bool)) : Except ExtractError ExtractRun :=
  extract_wad_chunks_go cl decompress fs wad_hashtable extract_directory
    filter_type filter_pattern chunks.length chunks 0 0 [] []

/-! ## `commands/list.rs` — compression ratio -/

/-- The per-chunk compression ratio of `list.rs::list`:
`(1.0 - compressed / uncompressed) * 100.0` when `uncompressed > 0`, and
`0.0` otherwise.  Modelled in exact rational arithmetic; the
counterexamples below involve only small integers at which the `f64`
computation of the code is exact. -/
def compression_ratio (compressed uncompressed : Nat) : ℚ :=
  if 0 < uncompressed then
    (1 - (compressed : ℚ) / (uncompressed : ℚ)) * 100
  else 0

/-! ## Lemmas about hexadecimal digits and `format_chunk_path_hash` -/

theorem hexDigitVal_hexDigitChar {d : Nat} (hd : d < 16) :
    hexDigitVal (hexDigitChar d) = some d := by
  interval_cases d <;> rfl

theorem isLowerHexDigit_hexDigitChar {d : Nat} (hd : d < 16) :
    isLowerHexDigit (hexDigitChar d) = true := by
  interval_cases d <;> rfl

theorem hexDigitChar_ne_plus {d : Nat} (hd : d < 16) : hexDigitChar d ≠ '+' := by
  interval_cases d <;> decide

theorem isAsciiHexDigit_ne_dot {c : Char} (h : isAsciiHexDigit c = true) : c ≠ '.' := by
  intro hc
  subst hc
  simp [isAsciiHexDigit] at h

theorem toHexChars_length_le : ∀ (fuel n : Nat), (toHexChars fuel n).length ≤ fuel := by
  intro fuel
  induction fuel with
  | zero => intro n; simp [toHexChars]
  | succ fuel ih =>
    intro n
    by_cases h : n = 0
    · simp [toHexChars, h]
    · simp only [toHexChars, h, if_false]
      rw [List.length_append]
      have := ih (n / 16)
      simp only [List.length_cons, List.length_nil]
      omega

theorem toHexChars_mem {fuel n : Nat} {c : Char} (hc : c ∈ toHexChars fuel n) :
    ∃ d, d < 16 ∧ c = hexDigitChar d := by
  induction fuel generalizing n with
  | zero => simp [toHexChars] at hc
  | succ fuel ih =>
    by_cases h : n = 0
    · simp [toHexChars, h] at hc
    · simp only [toHexChars, h, if_false] at hc
      rcases List.mem_append.mp hc with h1 | h2
      · exact ih h1
      · refine ⟨n % 16, Nat.mod_lt _ (by norm_num), ?_⟩
        simpa using h2

theorem parseHexAcc_none (cs : List Char) : cs.foldl parseHexAcc none = none := by
  induction cs with
  | nil => rfl
  | cons c rest ih => simpa [parseHexAcc] using ih

theorem foldl_parseHexAcc_replicate_zero (k : Nat) :
    (List.replicate k '0').foldl parseHexAcc (some 0) = some 0 := by
  induction k with
  | zero => rfl
  | succ k ih => simpa [List.replicate_succ, parseHexAcc, hexDigitVal] using ih

theorem foldl_parseHexAcc_toHexChars :
    ∀ (fuel n a : Nat), n < 16 ^ fuel →
      (toHexChars fuel n).foldl parseHexAcc (some a) =
        some (a * 16 ^ (toHexChars fuel n).length + n) := by
  intro fuel
  induction fuel with
  | zero =>
    intro n a hn
    interval_cases n
    simp [toHexChars]
  | succ fuel ih =>
    intro n a hn
    by_cases h : n = 0
    · simp [toHexChars, h]
    · have hdiv : n / 16 < 16 ^ fuel := by
        rw [Nat.div_lt_iff_lt_mul (by norm_num)]
        calc n < 16 ^ (fuel + 1) := hn
        _ = 16 ^ fuel * 16 := by ring
      simp only [toHexChars, h, if_false]
      rw [List.foldl_append, ih (n / 16) a hdiv]
      simp only [List.foldl_cons, List.foldl_nil, parseHexAcc,
        hexDigitVal_hexDigitChar (Nat.mod_lt n (show 0 < 16 by norm_num)),
        Option.map_some']
      congr 1
      rw [List.length_append, List.length_cons, List.length_nil]
      have := Nat.div_add_mod n 16
      ring_nf
      omega

theorem isEmpty_false_of_length_pos {l : List Char} (hl : 0 < l.length) :
    l.isEmpty = false := by
  cases l with
  | nil => simp at hl
  | cons c rest => rfl

/-- The digit characters `format_chunk_path_hash` produces parse back to
the formatted value. -/
theorem fromHexDigits_format (h : Nat) (hh : h < 2 ^ 64) :
    fromHexDigits (List.replicate (16 - (toHexChars 16 h).length) '0' ++ toHexChars 16 h) =
      some h := by
  have hds : (toHexChars 16 h).length ≤ 16 := toHexChars_length_le 16 h
  have hlen : (List.replicate (16 - (toHexChars 16 h).length) '0' ++ toHexChars 16 h).length
      = 16 := by
    rw [List.length_append, List.length_replicate]
    omega
  have h16 : h < 16 ^ 16 := by
    rw [show (16 : Nat) ^ 16 = 2 ^ 64 by norm_num]
    exact hh
  have hfold : (List.replicate (16 - (toHexChars 16 h).length) '0' ++
      toHexChars 16 h).foldl parseHexAcc (some 0) = some h := by
    rw [List.foldl_append, foldl_parseHexAcc_replicate_zero]
    simpa using foldl_parseHexAcc_toHexChars 16 h 0 h16
  rw [fromHexDigits, isEmpty_false_of_length_pos (by omega), hfold]
  simp only [Bool.false_eq_true, if_false]
  split
  · rfl
  · rename_i hcon
    norm_num at hh
    omega

/-- Each character of `format_chunk_path_hash h` is a lowercase hex digit. -/
theorem format_chunk_path_hash_chars (h : Nat) :
    ∀ c ∈ (format_chunk_path_hash h).data, isLowerHexDigit c = true := by
  intro c hc
  have hdata : (format_chunk_path_hash h).data =
      List.replicate (16 - (toHexChars 16 h).length) '0' ++ toHexChars 16 h := rfl
  rw [hdata] at hc
  rcases List.mem_append.mp hc with h1 | h2
  · have he := List.eq_of_mem_replicate h1
    subst he
    rfl
  · obtain ⟨d, hd, rfl⟩ := toHexChars_mem h2
    exact isLowerHexDigit_hexDigitChar hd

/-- `format_chunk_path_hash` always renders exactly 16 characters. -/
theorem format_chunk_path_hash_length (h : Nat) :
    (format_chunk_path_hash h).length = 16 := by
  have hds : (toHexChars 16 h).length ≤ 16 := toHexChars_length_le 16 h
  show (format_chunk_path_hash h).data.length = 16
  have hdata : (format_chunk_path_hash h).data =
      List.replicate (16 - (toHexChars 16 h).length) '0' ++ toHexChars 16 h := rfl
  rw [hdata, List.length_append, List.length_replicate]
  omega

/-- Round trip: parsing the 16-hex-digit rendering of a `u64` recovers it. -/
theorem from_str_radix_16_format (h : Nat) (hh : h < 2 ^ 64) :
    from_str_radix_16 (format_chunk_path_hash h) = some h := by
  have hdata : (format_chunk_path_hash h).data =
      List.replicate (16 - (toHexChars 16 h).length) '0' ++ toHexChars 16 h := rfl
  rw [from_str_radix_16]
  split
  · rename_i rest heq
    have hplus : '+' ∈ (format_chunk_path_hash h).data := by
      rw [heq]
      exact List.mem_cons_self _ _
    have := format_chunk_path_hash_chars h '+' hplus
    simp [isLowerHexDigit] at this
  · rw [hdata]
    exact fromHexDigits_format h hh

/-! ## Claim theorems -/

/-- C1.  The spec requires that a reference-only chunk participating in a
detected rename never also yields a `Removed` record, that the rename
search consider only the removed (reference-only) set, and that one
reference-only / target-only pair with equal checksums yield exactly one
`Renamed` and no `Added`/`Removed`.  The code violates this: with the
reference map holding only chunk `{hash 1, checksum 9}` and the target map
holding only chunk `{hash 2, checksum 9}`, `collect_diffs` pushes a
`Removed` record in its first pass and never retracts it when the second
pass detects the rename, so the pair yields both a `Removed` and a
`Renamed` record. -/
theorem collect_diffs_rename_also_removed :
    collect_diffs [(1, ⟨1, 9, 50, 100⟩)] [(2, ⟨2, 9, 50, 100⟩)] =
      [ChunkDiff.Removed ⟨1, 9, 50, 100⟩,
       ChunkDiff.Renamed ⟨1, 9, 50, 100⟩ ⟨2, 9, 50, 100⟩] := rfl

/-- C2.  The spec requires `add_from_file` to reject a source whose hash
field is not valid hexadecimal by returning a `ParseError` to the caller
without panicking.  The code instead calls
`u64::from_str_radix(hash, 16).expect("failed to convert hash")`, which
panics (aborts) on the first malformed hash field: on the single-line
source `"zz some/path"` the model reaches the panic outcome rather than a
returned error. -/
theorem add_from_file_panics_on_invalid_hex :
    add_from_file [] ["zz some/path"] =
      AddFromFileOutcome.panicked "failed to convert hash" := rfl

/-- C7.  `resolve_path` returns the stored path for a present hash; for an
absent `u64` hash it returns a deterministic 16-character zero-padded
lowercase hexadecimal string that parses back to the hash in base 16. -/
theorem resolve_path_spec (items : HashtableItems) (h : Nat) (hh : h < 2 ^ 64) :
    (∀ p, items.lookup h = some p → resolve_path items h = p) ∧
    (items.lookup h = none →
      (resolve_path items h).length = 16 ∧
      (∀ c ∈ (resolve_path items h).data, isLowerHexDigit c = true) ∧
      from_str_radix_16 (resolve_path items h) = some h) := by
  constructor
  · intro p hp
    simp [resolve_path, hp]
  · intro hnone
    simp only [resolve_path, hnone]
    exact ⟨format_chunk_path_hash_length h, format_chunk_path_hash_chars h,
      from_str_radix_16_format h hh⟩

/-- Witness for C7 at a concrete hashtable: hash 1 is present and resolves
to its stored path; hash 2 is absent and its hex fallback parses back. -/
theorem resolve_path_spec_witness :
    resolve_path [(1, "Assets/icon.png")] 1 = "Assets/icon.png" ∧
    from_str_radix_16 (resolve_path [(1, "Assets/icon.png")] 2) = some 2 :=
  ⟨(resolve_path_spec [(1, "Assets/icon.png")] 1 (by norm_num)).1 "Assets/icon.png" rfl,
   ((resolve_path_spec [(1, "Assets/icon.png")] 2 (by norm_num)).2 rfl).2.2⟩

/-- C8.  `create_filter_pattern` compiles the pattern unchanged when it
contains an inline case-sensitivity flag (`(?i)` or `(?-i)`), and otherwise
compiles the `(?i)`-prefixed pattern, so that — for any match semantics of
the compiled pattern — a flagless pattern matches a path exactly when the
`(?i)`-prefixed pattern does. -/
theorem create_filter_pattern_case_default (p : String) :
    (hasInlineCaseFlag p = true → create_filter_pattern (some p) = some p) ∧
    (hasInlineCaseFlag p = false →
      create_filter_pattern (some p) = some ("(?i)" ++ p) ∧
      ∀ (regexMatches : String → String → Bool) (s q : String),
        create_filter_pattern (some p) = some q →
        regexMatches q s = regexMatches ("(?i)" ++ p) s) := by
  constructor
  · intro hflag
    simp [create_filter_pattern, hflag]
  · intro hflag
    have hc : create_filter_pattern (some p) = some ("(?i)" ++ p) := by
      simp [create_filter_pattern, hflag]
    refine ⟨hc, ?_⟩
    intro regexMatches s q hq
    rw [hc] at hq
    injection hq with hq
    rw [hq]

/-- Witness for C8: the flagless pattern `"foo"` is compiled as
`"(?i)foo"`. -/
theorem create_filter_pattern_case_default_witness :
    create_filter_pattern (some "foo") = some "(?i)foo" :=
  ((create_filter_pattern_case_default "foo").2 rfl).1

/-- Counterexample for C9.  The claim says the ratio is `0` exactly when
`uncompressed == 0`; but at `compressed = uncompressed = 5` the code
computes `(1 - 5/5) * 100 = 0` (exactly, also in `f64`) although
`uncompressed ≠ 0`. -/
theorem compression_ratio_zero_at_equal_sizes :
    compression_ratio 5 5 = 0 ∧ (5 : Nat) ≠ 0 := by
  constructor
  · norm_num [compression_ratio]
  · norm_num

/-- C9 (amended).  The ratio equals `(1 - c/u) * 100` when `u > 0` and is
`0` exactly when `u = 0` or `c = u`; for `1 ≤ c ≤ u` it lies in
`[0, 100)` (in exact arithmetic). -/
theorem compression_ratio_amended (c u : Nat) :
    (0 < u → compression_ratio c u = (1 - (c : ℚ) / (u : ℚ)) * 100) ∧
    (compression_ratio c u = 0 ↔ u = 0 ∨ c = u) ∧
    (1 ≤ c → c ≤ u → 0 ≤ compression_ratio c u ∧ compression_ratio c u < 100) := by
  refine ⟨?_, ?_, ?_⟩
  · intro hu
    simp [compression_ratio, hu]
  · by_cases hu : 0 < u
    · have hu0 : ((u : ℚ)) ≠ 0 := Nat.cast_ne_zero.mpr (by omega)
      rw [compression_ratio, if_pos hu]
      constructor
      · intro he
        right
        rcases mul_eq_zero.mp he with h1 | h2
        · have hdiv : (c : ℚ) / (u : ℚ) = 1 := by linarith
          have := (div_eq_one_iff_eq hu0).mp hdiv
          exact_mod_cast this
        · norm_num at h2
      · rintro (h0 | hcu)
        · omega
        · subst hcu
          field_simp
    · have hu0 : u = 0 := by omega
      subst hu0
      simp [compression_ratio]
  · intro hc hcu
    have hu : 0 < u := by omega
    have huq : (0 : ℚ) < (u : ℚ) := by exact_mod_cast hu
    have hcq : (0 : ℚ) < (c : ℚ) := by exact_mod_cast (show 0 < c by omega)
    have hle : (c : ℚ) ≤ (u : ℚ) := by exact_mod_cast hcu
    have hdivpos : 0 < (c : ℚ) / (u : ℚ) := div_pos hcq huq
    have hdivle : (c : ℚ) / (u : ℚ) ≤ 1 := (div_le_one huq).mpr hle
    rw [compression_ratio, if_pos hu]
    constructor
    · nlinarith
    · nlinarith

/-- Witness for C9 (amended) at `c = 2`, `u = 4`. -/
theorem compression_ratio_amended_witness :
    0 ≤ compression_ratio 2 4 ∧ compression_ratio 2 4 < 100 :=
  (compression_ratio_amended 2 4).2.2 (by decide) (by decide)

theorem zip_self_map_mem {α β : Type} (f : α → β) (l : List α) :
    ∀ pr ∈ l.zip (l.map f), pr.2 = f pr.1 := by
  induction l with
  | nil =>
    intro pr h
    simp at h
  | cons a t ih =>
    intro pr h
    rw [List.map_cons, List.zip_cons_cons] at h
    rcases List.mem_cons.mp h with he | ht
    · rw [he]
    · exact ih pr ht

/-- C10.  `create_csv_records` emits one record per diff, in order; `new`
and `removed` records carry the single chunk's uncompressed size in both
size fields, and `new_path` is empty for every record whose type is not
`renamed`. -/
theorem create_csv_records_fields (diffs : List ChunkDiff) (ht : HashtableItems) :
    (create_csv_records diffs ht).length = diffs.length ∧
    ∀ pr ∈ diffs.zip (create_csv_records diffs ht),
      (∀ ch, pr.1 = ChunkDiff.New ch →
        pr.2.diff_type = "new" ∧
        pr.2.old_uncompressed_size = ch.uncompressed_size ∧
        pr.2.new_uncompressed_size = ch.uncompressed_size ∧
        pr.2.new_path = "") ∧
      (∀ ch, pr.1 = ChunkDiff.Removed ch →
        pr.2.diff_type = "removed" ∧
        pr.2.old_uncompressed_size = ch.uncompressed_size ∧
        pr.2.new_uncompressed_size = ch.uncompressed_size ∧
        pr.2.new_path = "") ∧
      (∀ o n, pr.1 = ChunkDiff.Modified o n →
        pr.2.diff_type = "modified" ∧ pr.2.new_path = "") ∧
      (∀ o n, pr.1 = ChunkDiff.Renamed o n → pr.2.diff_type = "renamed") := by
  refine ⟨by simp [create_csv_records], ?_⟩
  intro pr hpr
  have h2 : pr.2 = csv_record_of ht pr.1 :=
    zip_self_map_mem (csv_record_of ht) diffs pr hpr
  refine ⟨?_, ?_, ?_, ?_⟩
  · intro ch h1
    rw [h2, h1]
    exact ⟨rfl, rfl, rfl, rfl⟩
  · intro ch h1
    rw [h2, h1]
    exact ⟨rfl, rfl, rfl, rfl⟩
  · intro o n h1
    rw [h2, h1]
    exact ⟨rfl, rfl⟩
  · intro o n h1
    rw [h2, h1]
    rfl

/-- Witness for C10 on the singleton diff list `[New {hash 1, …, size 100}]`
with an empty hashtable. -/
theorem create_csv_records_fields_witness :
    (ChunkDiff.New ⟨1, 9, 50, 100⟩,
      (⟨"new", "0000000000000001", "0000000000000001", "", 100, 100⟩ :
        ChunkDiffCsvRecord)).2.diff_type = "new" ∧
    (ChunkDiff.New ⟨1, 9, 50, 100⟩,
      (⟨"new", "0000000000000001", "0000000000000001", "", 100, 100⟩ :
        ChunkDiffCsvRecord)).2.old_uncompressed_size = (100 : Nat) ∧
    (ChunkDiff.New ⟨1, 9, 50, 100⟩,
      (⟨"new", "0000000000000001", "0000000000000001", "", 100, 100⟩ :
        ChunkDiffCsvRecord)).2.new_uncompressed_size = (100 : Nat) ∧
    (ChunkDiff.New ⟨1, 9, 50, 100⟩,
      (⟨"new", "0000000000000001", "0000000000000001", "", 100, 100⟩ :
        ChunkDiffCsvRecord)).2.new_path = "" :=
  ((create_csv_records_fields [ChunkDiff.New ⟨1, 9, 50, 100⟩] []).2
    (ChunkDiff.New ⟨1, 9, 50, 100⟩,
      ⟨"new", "0000000000000001", "0000000000000001", "", 100, 100⟩)
    (by decide)).1 ⟨1, 9, 50, 100⟩ rfl

theorem charListLe_total : ∀ as bs : List Char,
    charListLe as bs = true ∨ charListLe bs as = true := by
  intro as
  induction as with
  | nil =>
    intro bs
    left
    rfl
  | cons a as ih =>
    intro bs
    cases bs with
    | nil =>
      right
      rfl
    | cons b bs =>
      rcases Nat.lt_trichotomy a.toNat b.toNat with hlt | heq | hgt
      · left
        simp [charListLe, hlt]
      · rcases ih bs with h | h
        · left
          simp [charListLe, heq, h]
        · right
          simp [charListLe, heq, h]
      · right
        simp [charListLe, hgt]

theorem charListLe_trans : ∀ as bs cs : List Char,
    charListLe as bs = true → charListLe bs cs = true → charListLe as cs = true := by
  intro as
  induction as with
  | nil =>
    intro bs cs h1 h2
    rfl
  | cons a as ih =>
    intro bs cs h1 h2
    cases bs with
    | nil => simp [charListLe] at h1
    | cons b bs =>
      cases cs with
      | nil => simp [charListLe] at h2
      | cons c cs =>
        simp only [charListLe] at h1 h2 ⊢
        split at h1
        · rename_i hab
          split at h2
          · rename_i hbc
            rw [if_pos (Nat.lt_trans hab hbc)]
          · split at h2
            · simp at h2
            · rename_i hcb hbc
              have hbc2 : b.toNat = c.toNat := by omega
              rw [if_pos (by omega : a.toNat < c.toNat)]
        · split at h1
          · simp at h1
          · rename_i hba hab
            have hab2 : a.toNat = b.toNat := by omega
            split at h2
            · rename_i hbc
              rw [if_pos (by omega : a.toNat < c.toNat)]
            · split at h2
              · simp at h2
              · rename_i hcb hbc
                have hbc2 : b.toNat = c.toNat := by omega
                rw [if_neg (by omega : ¬a.toNat < c.toNat),
                  if_neg (by omega : ¬c.toNat < a.toNat)]
                exact ih bs cs h1 h2

instance : IsTotal ChunkDiffCsvRecord csvPathLe :=
  ⟨fun a b => charListLe_total a.path.data b.path.data⟩

instance : IsTrans ChunkDiffCsvRecord csvPathLe :=
  ⟨fun a b c => charListLe_trans a.path.data b.path.data c.path.data⟩

/-- Counterexample for C5.  The claim says the diff engine's final records
are sorted by resolved path ascending before being returned; but
`collect_diffs` applies no sort: with reference chunks iterated in the
order hash 5, hash 3 (both absent from the target), the returned records
resolve to paths `…0005`, `…0003` — strictly descending. -/
theorem collect_diffs_unsorted_counterexample :
    isSortedAscStr ((create_csv_records
      (collect_diffs [(5, ⟨5, 9, 50, 100⟩), (3, ⟨3, 7, 40, 90⟩)] []) []).map
        (fun r => r.path)) = false := rfl

/-- C5 (amended).  Only the tabular CSV export sorts: `write_diffs_to_csv`
emits records sorted (stably) by the `path` field ascending, while
`collect_diffs` returns records in container iteration order.  The
hash-to-path resolution is consulted only for the exported record fields
and never affects how any chunk is classified: the sequence of record
types is the same for any two hashtables. -/
theorem write_diffs_to_csv_sorted (diffs : List ChunkDiff) (ht ht' : HashtableItems) :
    List.Sorted csvPathLe (write_diffs_to_csv diffs ht) ∧
    (create_csv_records diffs ht).map (fun r => r.diff_type) =
      (create_csv_records diffs ht').map (fun r => r.diff_type) := by
  constructor
  · exact List.sorted_insertionSort csvPathLe (create_csv_records diffs ht)
  · rw [create_csv_records, create_csv_records, List.map_map, List.map_map]
    apply List.map_congr_left
    intro d hd
    cases d <;> rfl

theorem rsplitDot_eq_none_of_no_dot :
    ∀ cs : List Char, (∀ c ∈ cs, c ≠ '.') → rsplitDot cs = none := by
  intro cs
  induction cs with
  | nil =>
    intro h
    rfl
  | cons c rest ih =>
    intro h
    have hr := ih (fun x hx => h x (List.mem_cons_of_mem _ hx))
    simp only [rsplitDot, hr]
    rw [if_neg (h c (List.mem_cons_self _ _))]

theorem fileStem_of_no_dot {name : String} (h : ∀ c ∈ name.data, c ≠ '.') :
    fileStem name = name := by
  rw [fileStem, rsplitDot_eq_none_of_no_dot name.data h]

theorem hex_file_name_no_dot {p : Utf8Path} (h : is_hex_chunk_path p = true) :
    ∀ c ∈ (pathFileName p).data, c ≠ '.' := by
  intro c hc
  simp only [is_hex_chunk_path, Bool.and_eq_true] at h
  exact isAsciiHexDigit_ne_dot (List.all_eq_true.mp h.2 c hc)

theorem ne_nil_of_hex {p : Utf8Path} (h : is_hex_chunk_path p = true) : p ≠ [] := by
  intro he
  subst he
  simp [is_hex_chunk_path, pathFileName] at h

/-- On a path whose file name contains no dot, `set_extension` appends
`"." ++ ext` to the file name. -/
theorem setExtension_no_dot {p : Utf8Path} (ext : String) (hne : p ≠ [])
    (h : ∀ c ∈ (pathFileName p).data, c ≠ '.') :
    setExtension p ext = p.dropLast ++ [pathFileName p ++ "." ++ ext] := by
  rcases List.eq_nil_or_concat p with rfl | ⟨q, a, rfl⟩
  · exact absurd rfl hne
  · simp only [List.concat_eq_append] at h ⊢
    have hlast : (q ++ [a]).getLast? = some a := List.getLast?_concat q
    have hname : pathFileName (q ++ [a]) = a := by
      rw [pathFileName, hlast]
      rfl
    rw [setExtension, hlast]
    rw [hname] at h ⊢
    dsimp only
    rw [fileStem_of_no_dot h]

/-- C3.  `resolve_final_chunk_path`: for a 16-hex-digit file name the
sniffed extension (if any) is appended to the hex name and no directory
check influences the result; otherwise a missing extension or a directory
collision at the joined destination replaces only the final path segment
with `stem ++ ".ltk" (++ "." ++ ext)`, and in all remaining cases the path
is unchanged; the only filesystem point ever consulted is
`extract_directory ++ chunk_path` (at most one directory-existence
check). -/
theorem resolve_final_chunk_path_policy (cl : Classifier)
    (isDir isDir' : Utf8Path → Bool) (extract_directory chunk_path : Utf8Path)
    (chunk_data : List Nat) (chunk_kind : Nat) :
    (is_hex_chunk_path chunk_path = true →
      resolve_final_chunk_path cl isDir extract_directory chunk_path chunk_data chunk_kind =
        (match cl.extension chunk_kind with
          | some ext => chunk_path.dropLast ++ [pathFileName chunk_path ++ "." ++ ext]
          | none => chunk_path) ∧
      resolve_final_chunk_path cl isDir extract_directory chunk_path chunk_data chunk_kind =
        resolve_final_chunk_path cl isDir' extract_directory chunk_path chunk_data chunk_kind) ∧
    (is_hex_chunk_path chunk_path = false →
      ((pathExtension chunk_path = none ∨ isDir (extract_directory ++ chunk_path) = true) →
        resolve_final_chunk_path cl isDir extract_directory chunk_path chunk_data chunk_kind =
          chunk_path.dropLast ++
            [(match cl.extension (cl.identify chunk_data) with
              | some ext => pathFileStem chunk_path ++ ".ltk." ++ ext
              | none => pathFileStem chunk_path ++ ".ltk")]) ∧
      (pathExtension chunk_path ≠ none → isDir (extract_directory ++ chunk_path) = false →
        resolve_final_chunk_path cl isDir extract_directory chunk_path chunk_data chunk_kind =
          chunk_path)) ∧
    (isDir (extract_directory ++ chunk_path) = isDir' (extract_directory ++ chunk_path) →
      resolve_final_chunk_path cl isDir extract_directory chunk_path chunk_data chunk_kind =
        resolve_final_chunk_path cl isDir' extract_directory chunk_path chunk_data chunk_kind) := by
  refine ⟨?_, ?_, ?_⟩
  · intro hhex
    constructor
    · rw [resolve_final_chunk_path, if_pos hhex]
      cases hext : cl.extension chunk_kind with
      | none => rfl
      | some ext =>
        exact setExtension_no_dot ext (ne_nil_of_hex hhex) (hex_file_name_no_dot hhex)
    · rw [resolve_final_chunk_path, if_pos hhex, resolve_final_chunk_path, if_pos hhex]
  · intro hhex
    constructor
    · intro hcond
      rw [resolve_final_chunk_path, if_neg (by simp [hhex])]
      have hc : (!(pathExtension chunk_path).isSome ||
          isDir (extract_directory ++ chunk_path)) = true := by
        rcases hcond with hnone | hdir
        · simp [hnone]
        · simp [hdir]
      rw [if_pos hc, setFileName, build_ltk_name]
    · intro hext hdir
      rw [resolve_final_chunk_path, if_neg (by simp [hhex])]
      have hc : (!(pathExtension chunk_path).isSome ||
          isDir (extract_directory ++ chunk_path)) = false := by
        rcases Option.isSome_iff_exists.mp
          (Option.ne_none_iff_isSome.mp hext) with ⟨e, he⟩
        simp [he, hdir]
      rw [if_neg (by rw [hc]; simp)]
  · intro hagree
    by_cases hhex : is_hex_chunk_path chunk_path = true
    · rw [resolve_final_chunk_path, if_pos hhex, resolve_final_chunk_path, if_pos hhex]
    · rw [resolve_final_chunk_path, if_neg hhex, resolve_final_chunk_path, if_neg hhex,
        hagree]

/-- A concrete classifier for witnesses: every byte sequence identifies as
kind `0`, whose canonical extension is `png`. -/
def sampleClassifier : Classifier :=
  ⟨fun _ => 0, fun k => if k = 0 then some "png" else none⟩

/-- A concrete filesystem for witnesses: no directories, all writes
succeed. -/
def sampleFs : Fs := ⟨fun _ => false, fun _ => none⟩

/-- A concrete chunk for witnesses. -/
def sampleChunk : WadChunk := ⟨1, 9, 50, 100⟩

/-- Witness for C3: an unresolved 16-hex-digit chunk name gets the sniffed
extension appended and nothing else. -/
theorem resolve_final_chunk_path_policy_witness :
    resolve_final_chunk_path sampleClassifier (fun _ => false) ["out"]
      ["0123456789abcdef"] [7] 0 = ["0123456789abcdef.png"] :=
  ((resolve_final_chunk_path_policy sampleClassifier (fun _ => false) (fun _ => true)
    ["out"] ["0123456789abcdef"] [7] 0).1 (by decide)).1

/-- C4.  In `extract_wad_chunk`, once a chunk is decompressed and admitted
by the kind filter: a write failing with `InvalidFilename` falls back to
writing the bytes under the 16-hex-digit hash name (sniffed extension
appended when known) as a single component directly under the destination
root and still returns `true` (the flag the caller counts as extracted),
while a write failing with any other kind aborts with a `WriteError`
carrying the (display-truncated) destination path. -/
theorem extract_wad_chunk_write_failure_policy (cl : Classifier)
    (decompress : WadChunk → Except String (List Nat)) (fs : Fs)
    (chunk : WadChunk) (chunk_path extract_directory : Utf8Path)
    (filter_type : Option (List Nat)) (chunk_data : List Nat)
    (hdec : decompress chunk = .ok chunk_data)
    (hkeep : filterExcludes filter_type (cl.identify chunk_data) = false) :
    (long_filename_fallback_name cl chunk (cl.identify chunk_data)).length = 1 ∧
    (fs.writeResult (extract_directory ++
        resolve_final_chunk_path cl fs.isDir extract_directory chunk_path chunk_data
          (cl.identify chunk_data)) = some IoErrorKind.invalidFilename →
      fs.writeResult (extract_directory ++
        long_filename_fallback_name cl chunk (cl.identify chunk_data)) = none →
      extract_wad_chunk cl decompress fs chunk chunk_path extract_directory filter_type =
        .ok (true, [⟨extract_directory ++
          long_filename_fallback_name cl chunk (cl.identify chunk_data), chunk_data⟩])) ∧
    (∀ code, fs.writeResult (extract_directory ++
        resolve_final_chunk_path cl fs.isDir extract_directory chunk_path chunk_data
          (cl.identify chunk_data)) = some (IoErrorKind.other code) →
      extract_wad_chunk cl decompress fs chunk chunk_path extract_directory filter_type =
        .error (.writeFailed (truncate_middle (pathToString (extract_directory ++
          resolve_final_chunk_path cl fs.isDir extract_directory chunk_path chunk_data
            (cl.identify chunk_data))) 120))) := by
  refine ⟨?_, ?_, ?_⟩
  · rw [long_filename_fallback_name]
    cases cl.extension (cl.identify chunk_data) <;> rfl
  · intro hw hf
    rw [extract_wad_chunk, hdec]
    dsimp only
    rw [if_neg (by rw [hkeep]; simp), hw]
    dsimp only
    rw [if_pos rfl, write_long_filename_chunk, hf]
  · intro code hw
    rw [extract_wad_chunk, hdec]
    dsimp only
    rw [if_neg (by rw [hkeep]; simp), hw]
    dsimp only
    rw [if_neg (by simp)]

/-- A concrete filesystem for the C4 witness: the primary destination fails
with `InvalidFilename`, everything else succeeds. -/
def invalidNameFs : Fs :=
  ⟨fun _ => false,
   fun p => if p = ["out", "verylongname.png"] then some IoErrorKind.invalidFilename
            else none⟩

/-- Witness for C4: the chunk whose resolved destination fails with
`InvalidFilename` is written under its hex hash name (plus sniffed
extension) directly under the root, and counted. -/
theorem extract_wad_chunk_write_failure_policy_witness :
    extract_wad_chunk sampleClassifier (fun _ => Except.ok [7]) invalidNameFs sampleChunk
      ["verylongname.png"] ["out"] none =
      Except.ok (true, [⟨["out", "0000000000000001.png"], [7]⟩]) :=
  (extract_wad_chunk_write_failure_policy sampleClassifier (fun _ => Except.ok [7])
    invalidNameFs sampleChunk ["verylongname.png"] ["out"] none [7] rfl rfl).2.1
    (by decide) (by decide)

theorem extract_wad_chunk_writes_count (cl : Classifier)
    (decompress : WadChunk → Except String (List Nat)) (fs : Fs)
    (chunk : WadChunk) (chunk_path extract_directory : Utf8Path)
    (filter_type : Option (List Nat)) {b : Bool} {ws : List WriteOp}
    (h : extract_wad_chunk cl decompress fs chunk chunk_path extract_directory
      filter_type = .ok (b, ws)) :
    ws.length = if b then 1 else 0 := by
  rw [extract_wad_chunk] at h
  split at h
  · exact absurd h (by simp)
  · dsimp only at h
    split at h
    · simp only [Except.ok.injEq, Prod.mk.injEq] at h
      rw [← h.1, ← h.2]
      rfl
    · split at h
      · simp only [Except.ok.injEq, Prod.mk.injEq] at h
        rw [← h.1, ← h.2]
        rfl
      · split at h
        · split at h
          · simp only [Except.ok.injEq, Prod.mk.injEq] at h
            rw [← h.1, ← h.2]
            rfl
          · exact absurd h (by simp)
        · exact absurd h (by simp)

theorem extract_wad_chunk_decompress_congr (cl : Classifier) (fs : Fs)
    (chunk : WadChunk) (chunk_path extract_directory : Utf8Path)
    (filter_type : Option (List Nat))
    {d d' : WadChunk → Except String (List Nat)} (h : d chunk = d' chunk) :
    extract_wad_chunk cl d fs chunk chunk_path extract_directory filter_type =
      extract_wad_chunk cl d' fs chunk chunk_path extract_directory filter_type := by
  rw [extract_wad_chunk, extract_wad_chunk, h]

theorem extract_wad_chunks_go_spec (cl : Classifier)
    (decompress : WadChunk → Except String (List Nat)) (fs : Fs)
    (ht : HashtableItems) (extract_directory : Utf8Path)
    (filter_type : Option (List Nat)) (filter_pattern : Option (String → Bool))
    (total : Nat) :
    ∀ (cs : List WadChunk) (i count : Nat) (writes : List WriteOp)
      (progress : List ProgressEntry) (run : ExtractRun),
      extract_wad_chunks_go cl decompress fs ht extract_directory filter_type
        filter_pattern total cs i count writes progress = .ok run →
      run.extracted_count + writes.length = count + run.writes.length ∧
      run.progress.length = progress.length + cs.length ∧
      (∀ e ∈ run.progress, e ∈ progress ∨ e.denominator = total) := by
  intro cs
  induction cs with
  | nil =>
    intro i count writes progress run h
    rw [extract_wad_chunks_go] at h
    simp only [Except.ok.injEq] at h
    subst h
    exact ⟨rfl, by simp, fun e he => Or.inl he⟩
  | cons c rest ih =>
    intro i count writes progress run h
    rw [extract_wad_chunks_go] at h
    split at h
    · have hrec := ih (i + 1) count writes
        (progress ++ [⟨i, total, truncate_middle (resolve_path ht c.path_hash) 120⟩]) run h
      refine ⟨hrec.1, ?_, ?_⟩
      · rw [hrec.2.1, List.length_append]
        simp
        omega
      · intro e he
        rcases hrec.2.2 e he with hin | hd
        · rcases List.mem_append.mp hin with h1 | h2
          · exact Or.inl h1
          · right
            rw [List.mem_singleton.mp h2]
        · exact Or.inr hd
    · split at h
      · exact absurd h (by simp)
      · rename_i wrote ws heq
        have hlen := extract_wad_chunk_writes_count cl decompress fs c
          (pathOfString (resolve_path ht c.path_hash)) extract_directory filter_type heq
        have hrec := ih (i + 1) (count + if wrote then 1 else 0) (writes ++ ws)
          (progress ++ [⟨i, total, truncate_middle (resolve_path ht c.path_hash) 120⟩]) run h
        refine ⟨?_, ?_, ?_⟩
        · have h1 := hrec.1
          rw [List.length_append, ← hlen] at h1
          omega
        · rw [hrec.2.1, List.length_append]
          simp
          omega
        · intro e he
          rcases hrec.2.2 e he with hin | hd
          · rcases List.mem_append.mp hin with h1 | h2
            · exact Or.inl h1
            · right
              rw [List.mem_singleton.mp h2]
          · exact Or.inr hd

theorem extract_wad_chunks_go_congr (cl : Classifier) (fs : Fs)
    (ht : HashtableItems) (extract_directory : Utf8Path)
    (filter_type : Option (List Nat)) (filter_pattern : Option (String → Bool))
    (total : Nat) {d d' : WadChunk → Except String (List Nat)} :
    ∀ (cs : List WadChunk) (i count : Nat) (writes : List WriteOp)
      (progress : List ProgressEntry),
      (∀ c ∈ cs, patternAdmits filter_pattern (resolve_path ht c.path_hash) = true →
        d c = d' c) →
      extract_wad_chunks_go cl d fs ht extract_directory filter_type filter_pattern
        total cs i count writes progress =
      extract_wad_chunks_go cl d' fs ht extract_directory filter_type filter_pattern
        total cs i count writes progress := by
  intro cs
  induction cs with
  | nil =>
    intro i count writes progress hagree
    rfl
  | cons c rest ih =>
    intro i count writes progress hagree
    rw [extract_wad_chunks_go, extract_wad_chunks_go]
    by_cases hpat : patternAdmits filter_pattern (resolve_path ht c.path_hash) = false
    · rw [if_pos hpat, if_pos hpat]
      exact ih _ _ _ _ (fun x hx => hagree x (List.mem_cons_of_mem _ hx))
    · rw [if_neg hpat, if_neg hpat]
      have hdc : d c = d' c :=
        hagree c (List.mem_cons_self _ _) (by
          cases hp : patternAdmits filter_pattern (resolve_path ht c.path_hash)
          · exact absurd hp hpat
          · rfl)
      rw [extract_wad_chunk_decompress_congr cl fs c
        (pathOfString (resolve_path ht c.path_hash)) extract_directory filter_type hdc]
      cases hres : extract_wad_chunk cl d' fs c
          (pathOfString (resolve_path ht c.path_hash)) extract_directory filter_type with
      | error e => rfl
      | ok pair =>
        obtain ⟨wrote, ws⟩ := pair
        exact ih _ _ _ _ (fun x hx => hagree x (List.mem_cons_of_mem _ hx))

/-- C6.  `extract_wad_chunks` returns exactly the number of chunks actually
written (each counted chunk contributes exactly one successful write,
including long-filename fallbacks); every chunk — skipped or not — gets one
progress report whose denominator is the total chunk count; a chunk whose
resolved path fails the configured pattern is skipped before decompression
(the run does not depend on the decoder's behaviour on such chunks); and a
chunk whose sniffed kind is excluded by the kind filter is skipped without
any write and without being counted. -/
theorem extract_wad_chunks_count_and_skips (cl : Classifier) (fs : Fs)
    (ht : HashtableItems) (extract_directory : Utf8Path)
    (filter_type : Option (List Nat)) (filter_pattern : Option (String → Bool))
    (chunks : List WadChunk) :
    (∀ (decompress : WadChunk → Except String (List Nat)) (run : ExtractRun),
      extract_wad_chunks cl decompress fs ht chunks extract_directory filter_type
        filter_pattern = .ok run →
      run.extracted_count = run.writes.length ∧
      run.progress.length = chunks.length ∧
      ∀ e ∈ run.progress, e.denominator = chunks.length) ∧
    (∀ (d d' : WadChunk → Except String (List Nat)),
      (∀ c ∈ chunks, patternAdmits filter_pattern (resolve_path ht c.path_hash) = true →
        d c = d' c) →
      extract_wad_chunks cl d fs ht chunks extract_directory filter_type filter_pattern =
        extract_wad_chunks cl d' fs ht chunks extract_directory filter_type filter_pattern) ∧
    (∀ (decompress : WadChunk → Except String (List Nat)) (c : WadChunk)
      (p : Utf8Path) (chunk_data : List Nat) (ks : List Nat),
      decompress c = .ok chunk_data → ks.contains (cl.identify chunk_data) = false →
      extract_wad_chunk cl decompress fs c p extract_directory (some ks) =
        .ok (false, [])) := by
  refine ⟨?_, ?_, ?_⟩
  · intro decompress run h
    have hs := extract_wad_chunks_go_spec cl decompress fs ht extract_directory
      filter_type filter_pattern chunks.length chunks 0 0 [] [] run h
    refine ⟨by have := hs.1; simpa using this, by have := hs.2.1; simpa using this, ?_⟩
    intro e he
    rcases hs.2.2 e he with hin | hd
    · simp at hin
    · exact hd
  · intro d d' hagree
    exact extract_wad_chunks_go_congr cl fs ht extract_directory filter_type
      filter_pattern chunks.length chunks 0 0 [] [] hagree
  · intro decompress c p chunk_data ks hdec hcont
    rw [extract_wad_chunk, hdec]
    dsimp only
    rw [if_pos (show filterExcludes (some ks) (cl.identify chunk_data) = true by
      simp only [filterExcludes]
      rw [hcont]
      rfl)]

/-- The run produced by extracting the single sample chunk with no filters
into `out`: one chunk extracted, one write, one progress report. -/
def sampleRun : ExtractRun :=
  ⟨1, [⟨["out", "0000000000000001.png"], [7]⟩], [⟨0, 1, "0000000000000001"⟩]⟩

/-- Witness for C6 on the singleton batch `[sampleChunk]`: the returned
count equals the number of writes and the single progress entry uses the
batch size as denominator. -/
theorem extract_wad_chunks_count_and_skips_witness :
    sampleRun.extracted_count = sampleRun.writes.length ∧
    sampleRun.progress.length = [sampleChunk].length ∧
    ∀ e ∈ sampleRun.progress, e.denominator = [sampleChunk].length :=
  (extract_wad_chunks_count_and_skips sampleClassifier sampleFs [] ["out"]
    none none [sampleChunk]).1 (fun _ => Except.ok [7]) sampleRun (by rfl)
